import Mathlib

/-!
Verification development for the flaqes/flakes schema-critic.

The data model (tables, columns, keys) and the Mermaid ERD generator are
translated from the repository sources (`src/flaqes/report/mermaid.py` and the
schema-graph value objects its tests construct).  The analysis core (graph
construction, role detection, pattern detection, tension analysis) is not
present in the visible sources; those parts are modelled from the spec and are
marked as such in their doc comments.
-/

/-- Classification of a column's data type (from the data model used by
`tests/report/test_mermaid.py` and the spec's data-model section). -/
inductive DataTypeCategory where
  | integer
  | text
  | decimal
  | boolean
  | datetime
  | binary
  | other
deriving DecidableEq

/-- A column's type: the raw database type string plus its category. -/
structure DataType where
  raw : String
  category : DataTypeCategory
deriving DecidableEq

/-- A table column: name, type, nullability. -/
structure Column where
  name : String
  data_type : DataType
  nullable : Bool
deriving DecidableEq

/-- A primary key: name plus ordered column names. -/
structure PrimaryKey where
  name : String
  columns : List String
deriving DecidableEq

/-- A foreign key: source columns, target table (possibly absent from the
graph: dangling), target columns. -/
structure ForeignKey where
  name : String
  columns : List String
  target_table : String
  target_schema : String
  target_columns : List String
deriving DecidableEq

/-- A descriptive constraint (check, unique, ...). -/
structure Constraint where
  name : String
  kind : String
  columns : List String
deriving DecidableEq

/-- A descriptive index. -/
structure Index where
  name : String
  method : String
  columns : List String
deriving DecidableEq

/-- A table: qualified name (schema + name), ordered columns, optional primary
key, foreign keys, plus descriptive constraints and indexes. -/
structure Table where
  name : String
  schema : String
  columns : List Column
  primary_key : Option PrimaryKey := none
  foreign_keys : List ForeignKey := []
  constraints : List Constraint := []
  indexes : List Index := []
deriving DecidableEq

/-- The schema-qualified name identifying a table within a graph. -/
def Table.qualifiedName (t : Table) : String :=
  t.schema ++ "." ++ t.name

/-- The schema graph: a mapping from qualified table name to table, in
insertion order (Python dict preserves insertion order). -/
structure SchemaGraph where
  tables : List (String × Table)
deriving DecidableEq

/-- Iterating a `SchemaGraph` (Python `for table in graph`) yields the tables
in insertion order. -/
def SchemaGraph.tablesList (g : SchemaGraph) : List Table :=
  g.tables.map Prod.snd

/-- `lookup` returns the table stored under a qualified name, or `none`
(not found is not a fatal condition). -/
def SchemaGraph.lookup (g : SchemaGraph) (qualifiedName : String) : Option Table :=
  (g.tables.find? (fun e => e.1 == qualifiedName)).map Prod.snd

/-! ## Mermaid ERD generation, translated from `src/flaqes/report/mermaid.py` -/

/-- Replace every occurrence of the character `c` by `r` (the semantics of
Python `str.replace` for a single-character pattern and replacement). -/
def replaceChar (c r : Char) (s : String) : String :=
  String.mk (s.data.map (fun x => if x = c then r else x))

/-- Remove every occurrence of the character `c` (the semantics of Python
`str.replace(c, "")` for a single-character pattern). -/
def removeChar (c : Char) (s : String) : String :=
  String.mk (s.data.filter (fun x => x != c))

/-- Sanitized type name: `raw.replace(" ", "_").replace("(", "").replace(")",
"").replace("[", "").replace("]", "")`. -/
def sanitizeRawType (raw : String) : String :=
  removeChar ']' (removeChar '[' (removeChar ')' (removeChar '(' (replaceChar ' ' '_' raw))))

/-- The line emitted for one column of a table, with its `PK` / `FK` markers. -/
def columnLine (table : Table) (column : Column) : String :=
  let col_type := sanitizeRawType column.data_type.raw
  let col_name := replaceChar ' ' '_' column.name
  let pkMark : Bool :=
    match table.primary_key with
    | some pk => pk.columns.contains column.name
    | none => false
  let fkMark : Bool := table.foreign_keys.any (fun fk => fk.columns.contains column.name)
  let constraintList := (if pkMark then [("PK" : String)] else []) ++ (if fkMark then [("FK" : String)] else [])
  let constraint_str :=
    if constraintList.isEmpty then ("" : String)
    else (" " : String) ++ String.intercalate (",") constraintList
  ("        " : String) ++ col_type ++ (" ") ++ col_name ++ constraint_str

/-- The relationship line emitted for one foreign key of a table. -/
def fkLine (table : Table) (fk : ForeignKey) : String :=
  let is_nullable := table.columns.any (fun col => col.nullable && fk.columns.contains col.name)
  let relationship := if is_nullable then ("||--o\x7b" : String) else ("||--|\x7b" : String)
  let label := String.intercalate (", ") fk.columns
  ("    " : String) ++ fk.target_table ++ (" ") ++ relationship ++ (" ") ++ table.name
    ++ (" : \"") ++ label ++ ("\"")

/-- The list `lines` built by `generate_mermaid_erd`, following the source's
append-by-append control flow: header, then one block per table (opening line,
column lines, closing brace, blank line), then one relationship line per
foreign key. -/
def mermaidLines (graph : SchemaGraph) : List String :=
  let lines : List String := [("erDiagram" : String), ("" : String)]
  let lines := graph.tablesList.foldl
    (fun acc table =>
      let acc := acc ++ [("    " : String) ++ table.name ++ (" \x7b")]
      let acc := table.columns.foldl (fun acc2 column => acc2 ++ [columnLine table column]) acc
      acc ++ [("    \x7d" : String), ("" : String)])
    lines
  graph.tablesList.foldl
    (fun acc table => table.foreign_keys.foldl (fun acc2 fk => acc2 ++ [fkLine table fk]) acc)
    lines

/-- `generate_mermaid_erd`: join the emitted lines with newlines. -/
def generate_mermaid_erd (graph : SchemaGraph) : String :=
  String.intercalate ("\n") (mermaidLines graph)

/-- The block of lines describing one table (used to state structural theorems
about `mermaidLines`). -/
def tableBlock (table : Table) : List String :=
  (("    " : String) ++ table.name ++ (" \x7b"))
    :: (table.columns.map (columnLine table) ++ [("    \x7d" : String), ("" : String)])

/-! ## Schema-graph construction (spec-modelled) -/

/-- Modelled from the spec: the fatal error taxonomy names a single graph
construction failure, a duplicate qualified table name.  The source module
`flakes.core.schema_graph` is not among the visible sources. -/
inductive GraphConstructionError where
  | duplicateTable (qualifiedName : String)
deriving DecidableEq

/-- Modelled from the spec: non-fatal warnings recorded during construction;
the only kind the spec names is a dangling foreign-key reference. -/
inductive GraphWarning where
  | danglingReference (tableName fkName targetName : String)
deriving DecidableEq

/-- The qualified name a foreign key points at. -/
def fkTargetQualified (fk : ForeignKey) : String :=
  fk.target_schema ++ "." ++ fk.target_table

/-- Modelled from the spec: insert tables one by one, keyed by qualified name,
aborting with `GraphConstructionError` on a duplicate qualified name. -/
def insertTables : List Table → List (String × Table) → Except GraphConstructionError (List (String × Table))
  | [], acc => .ok acc
  | t :: ts, acc =>
    if (acc.map Prod.fst).contains t.qualifiedName then
      .error (.duplicateTable t.qualifiedName)
    else
      insertTables ts (acc ++ [(t.qualifiedName, t)])

/-- Modelled from the spec: after insertion, record a non-fatal warning for
every foreign key whose target table is absent from the graph. -/
def danglingWarnings (entries : List (String × Table)) : List GraphWarning :=
  entries.flatMap (fun e =>
    e.2.foreign_keys.filterMap (fun fk =>
      if (entries.map Prod.fst).contains (fkTargetQualified fk) then none
      else some (.danglingReference e.1 fk.name (fkTargetQualified fk))))

/-- Modelled from the spec: graph construction.  On success it yields the
graph together with the non-fatal warnings; on a duplicate qualified name it
aborts with `GraphConstructionError` and no partial graph is returned. -/
def buildGraph (ts : List Table) : Except GraphConstructionError (SchemaGraph × List GraphWarning) :=
  (insertTables ts []).map (fun entries => (⟨entries⟩, danglingWarnings entries))

/-! ## Role detection (spec-modelled) -/

/-- The fixed enumerated set of table roles named by the spec. -/
inductive RoleType where
  | entity
  | junction
  | lookup
  | audit
  | dimension
  | fact
  | system
deriving DecidableEq

/-- Modelled from the spec: the fixed declared priority ordering over role
types used to break ties between equally-scored roles.  `entity` comes first
so that a table with no firing signal (all scores zero) defaults to the
generic `entity` role. -/
def rolesPriority : List RoleType :=
  [.entity, .junction, .lookup, .audit, .dimension, .fact, .system]

/-- A named, weighted piece of evidence toward a role classification. -/
structure Signal where
  role : RoleType
  name : String
  weight : ℚ
deriving DecidableEq

/-- Whether a column (by name) participates in some foreign key of the table. -/
def isFkColumn (t : Table) (colName : String) : Bool :=
  t.foreign_keys.any (fun fk => fk.columns.contains colName)

/-- Modelled from the spec: the junction rule fires when the primary key is a
composite made entirely of foreign-key columns and the table has no other
columns. -/
def junctionSignal (t : Table) : List Signal :=
  match t.primary_key with
  | none => []
  | some pk =>
    if 2 ≤ pk.columns.length && pk.columns.all (isFkColumn t)
        && t.columns.all (fun c => pk.columns.contains c.name) then
      [⟨.junction, ("composite_pk_all_foreign_keys" : String), 9/10⟩]
    else []

/-- Modelled from the spec: a small enumeration-like shape (few columns, a
text column, no foreign keys) hints at a lookup table. -/
def lookupSignal (t : Table) : List Signal :=
  if t.foreign_keys.isEmpty && t.columns.length ≤ 3
      && t.columns.any (fun c => c.data_type.category == .text) then
    [⟨.lookup, ("small_enumeration_shape" : String), 1/2⟩]
  else []

/-- Modelled from the spec: timestamp columns without a primary key hint at an
audit/log table. -/
def auditSignal (t : Table) : List Signal :=
  if t.columns.any (fun c => c.data_type.category == .datetime) && t.primary_key.isNone then
    [⟨.audit, ("timestamps_without_primary_key" : String), 3/5⟩]
  else []

/-- Modelled from the spec: the fixed battery of role signal rules, iterated
in a stable declared order. -/
def roleSignals (t : Table) : List Signal :=
  junctionSignal t ++ lookupSignal t ++ auditSignal t

/-- Signals for the same role sum; this is a role's aggregate score. -/
def roleScore (t : Table) (r : RoleType) : ℚ :=
  ((roleSignals t).filter (fun s => s.role == r)).foldr (fun s acc => s.weight + acc) 0

/-- Every role paired with its aggregate score, in declared priority order. -/
def scoredRoles (t : Table) : List (RoleType × ℚ) :=
  rolesPriority.map (fun r => (r, roleScore t r))

/-- Fold keeping the best-scored entry; a later entry replaces the current
best only when its score is strictly greater, so ties resolve to the earlier
entry in the declared priority order. -/
def pickBest : (RoleType × ℚ) → List (RoleType × ℚ) → (RoleType × ℚ)
  | best, [] => best
  | best, x :: xs => pickBest (if best.2 < x.2 then x else best) xs

/-- The primary role of a table together with its aggregate score. -/
def primaryOf (t : Table) : RoleType × ℚ :=
  match scoredRoles t with
  | [] => (.entity, 0)
  | x :: xs => pickBest x xs

/-- The role-detection result for one table: the primary role, its confidence
(the winning aggregate score), the full scored ranking and the contributing
signals. -/
structure TableRoleResult where
  tableName : String
  primary : RoleType
  confidence : ℚ
  ranked : List (RoleType × ℚ)
  signals : List Signal
deriving DecidableEq

/-- Modelled from the spec: classify one table. -/
def detectRole (t : Table) : TableRoleResult :=
  let p := primaryOf t
  ⟨t.qualifiedName, p.1, p.2, scoredRoles t, roleSignals t⟩

/-! ## Pattern detection (spec-modelled) -/

/-- The named design patterns from the spec's minimum pattern set. -/
inductive PatternType where
  | soft_delete
  | scd_type2
  | polymorphic_association
  | junction_table
  | natural_key_mismatch
deriving DecidableEq

/-- Broad grouping of patterns. -/
inductive PatternCategory where
  | lifecycle
  | temporal
  | modeling
deriving DecidableEq

/-- The category each pattern belongs to. -/
def patternCategoryOf : PatternType → PatternCategory
  | .soft_delete => .lifecycle
  | .scd_type2 => .temporal
  | .polymorphic_association => .modeling
  | .junction_table => .modeling
  | .natural_key_mismatch => .modeling

/-- A named, weighted piece of evidence toward a pattern. -/
structure PatternSignal where
  name : String
  weight : ℚ
deriving DecidableEq

/-- A detected pattern instance: type, category, involved tables, confidence
in `[0,1]`, and the contributing signals. -/
structure DetectedPattern where
  pattern : PatternType
  category : PatternCategory
  tables : List String
  confidence : ℚ
  signals : List PatternSignal
deriving DecidableEq

/-- Modelled from the spec: the deletion-marker vocabulary. -/
def deletionMarkerNames : List String :=
  [("is_deleted" : String), ("deleted" : String), ("is_removed" : String),
   ("deleted_at" : String), ("removed_at" : String), ("archived_at" : String)]

/-- Modelled from the spec: a soft-delete signal fires for each nullable
boolean or nullable timestamp column whose name is in the deletion-marker
vocabulary. -/
def softDeleteSignals (t : Table) : List PatternSignal :=
  (t.columns.filter (fun c =>
      c.nullable
        && (c.data_type.category == .boolean || c.data_type.category == .datetime)
        && deletionMarkerNames.contains c.name)).map
    (fun c => ⟨("deletion_marker_column_" : String) ++ c.name, 7/10⟩)

/-- Modelled from the spec: an SCD Type 2 signal fires on an
effective-from/effective-to or valid-from/valid-to column pair. -/
def scdSignals (t : Table) : List PatternSignal :=
  let names := t.columns.map (fun c => c.name)
  if (names.contains ("valid_from") && names.contains ("valid_to"))
      || (names.contains ("effective_from") && names.contains ("effective_to")) then
    [⟨("validity_period_pair" : String), 3/5⟩]
  else []

/-- Modelled from the spec: the junction pattern is corroborated by the role
detector's junction signal. -/
def junctionPatternSignals (t : Table) : List PatternSignal :=
  if (junctionSignal t).isEmpty then []
  else [⟨("composite_pk_all_foreign_keys" : String), 4/5⟩]

/-- Clip a rational to the closed interval `[0,1]`. -/
def clip01 (q : ℚ) : ℚ := max 0 (min 1 q)

/-- Sum of the weights of a list of pattern signals. -/
def sumWeights (ss : List PatternSignal) : ℚ :=
  ss.foldr (fun s acc => s.weight + acc) 0

/-- Confidence: the weighted sum of fired signals, clipped to `[0,1]`. -/
def patternConfidence (ss : List PatternSignal) : ℚ :=
  clip01 (sumWeights ss)

/-- The caller's stated optimization priorities; absent entries default to a
neutral balanced weight of 1. -/
structure Intent where
  write_throughput : ℚ := 1
  read_simplicity : ℚ := 1
  auditability : ℚ := 1
  storage_cost : ℚ := 1
deriving DecidableEq

/-- The documented balanced default intent. -/
def defaultIntent : Intent := {}

/-- The core entry configuration: enabled patterns, per-pattern confidence
thresholds (default 0.5), and the intent. -/
structure AnalysisConfig where
  enabled : PatternType → Bool := fun _ => true
  thresholds : PatternType → ℚ := fun _ => 1/2
  intent : Intent := {}

/-- The documented default configuration. -/
def defaultConfig : AnalysisConfig := {}

/-- The pattern detectors run for one table, in a stable declared order. -/
def patternCandidates (t : Table) : List (PatternType × List PatternSignal) :=
  [(.soft_delete, softDeleteSignals t), (.scd_type2, scdSignals t),
   (.junction_table, junctionPatternSignals t)]

/-- Modelled from the spec: a pattern instance is reported only when it is
enabled and its confidence exceeds the configured threshold. -/
def detectPatternsForTable (cfg : AnalysisConfig) (t : Table) : List DetectedPattern :=
  (patternCandidates t).filterMap (fun pc =>
    let conf := patternConfidence pc.2
    if cfg.enabled pc.1 && decide (cfg.thresholds pc.1 < conf) then
      some ⟨pc.1, patternCategoryOf pc.1, [t.qualifiedName], conf, pc.2⟩
    else none)

/-- Modelled from the spec: pattern detection over the whole graph. -/
def detectPatterns (cfg : AnalysisConfig) (g : SchemaGraph) : List DetectedPattern :=
  g.tablesList.flatMap (detectPatternsForTable cfg)

/-! ## Tension analysis (spec-modelled) -/

/-- Ordered severities: `info < low < medium < high < critical`. -/
inductive Severity where
  | info
  | low
  | medium
  | high
  | critical
deriving DecidableEq

/-- Numeric rank of a severity, increasing with severity. -/
def sevRank : Severity → Nat
  | .info => 0
  | .low => 1
  | .medium => 2
  | .high => 3
  | .critical => 4

/-- Ordered efforts: `trivial < small < medium < large`. -/
inductive Effort where
  | trivial
  | small
  | medium
  | large
deriving DecidableEq

/-- Numeric rank of an effort, increasing with effort. -/
def effRank : Effort → Nat
  | .trivial => 0
  | .small => 1
  | .medium => 2
  | .large => 3

/-- An alternative: a description and a discrete effort estimate.  (Named
`Alternative` in the source data model; renamed here because Lean already
declares `Alternative`.) -/
structure TensionAlternative where
  description : String
  effort : Effort
deriving DecidableEq

/-- A named, weighted piece of evidence toward a tension. -/
structure TensionSignal where
  name : String
  weight : ℚ
deriving DecidableEq

/-- Broad tension categories. -/
inductive TensionCategory where
  | read_complexity
  | write_amplification
  | audit_gap
  | key_design
deriving DecidableEq

/-- A design tension: category, severity, description, involved tables,
alternatives, contributing signals. -/
structure DesignTension where
  category : TensionCategory
  severity : Severity
  description : String
  tables : List String
  alternatives : List TensionAlternative
  signals : List TensionSignal
deriving DecidableEq

/-- The minimum effort rank among a tension's alternatives (the spec requires
at least one alternative; `3`, the rank of `large`, is the neutral element of
`min` over effort ranks). -/
def minEffortRank (t : DesignTension) : Nat :=
  t.alternatives.foldr (fun a m => min (effRank a.effort) m) 3

/-- Sort key: severity descending first, then minimum alternative effort
ascending.  Effort ranks lie in `[0,3]`, so the factor 4 makes the encoding
lexicographic. -/
def tensionKey (t : DesignTension) : Nat :=
  (4 - sevRank t.severity) * 4 + minEffortRank t

/-- Boolean comparison used by the stable ranking sort. -/
def tensionLE (a b : DesignTension) : Bool :=
  tensionKey a ≤ tensionKey b

/-- Modelled from the spec: rank tensions with a stable sort by severity
descending, then minimum alternative effort ascending. -/
def sortTensions (l : List DesignTension) : List DesignTension :=
  l.mergeSort tensionLE

/-- Modelled from the spec: the tension rule for one detected pattern:
compare the pattern's cost profile against the intent's weights; the tension
fires when the weighted mismatch exceeds the rule's threshold, with severity
derived from the magnitude of the mismatch. -/
def tensionRule (intent : Intent) (p : DetectedPattern) : Option DesignTension :=
  match p.pattern with
  | .soft_delete =>
    let mismatch := intent.read_simplicity * p.confidence
    if 1/2 < mismatch then
      some ⟨.read_complexity, if 3/2 < mismatch then .high else .medium,
        ("soft delete raises read-query complexity" : String), p.tables,
        [⟨("add a partial index excluding deleted rows" : String), .small⟩,
         ⟨("move deleted rows to an archive table" : String), .large⟩],
        [⟨("read_simplicity_mismatch" : String), mismatch⟩]⟩
    else none
  | .scd_type2 =>
    let mismatch := intent.write_throughput * p.confidence
    if 1/2 < mismatch then
      some ⟨.write_amplification, if 3/2 < mismatch then .high else .medium,
        ("versioned rows amplify writes" : String), p.tables,
        [⟨("snapshot history into a separate table" : String), .medium⟩],
        [⟨("write_throughput_mismatch" : String), mismatch⟩]⟩
    else none
  | _ => none

/-- Modelled from the spec: the tension analyzer evaluates the tension rules
over the detected patterns in detection order, then ranks the firing tensions
with the stable sort. -/
def analyzeTensions (patterns : List DetectedPattern) (roles : List TableRoleResult)
    (intent : Intent) : List DesignTension :=
  let _ := roles
  sortTensions (patterns.filterMap (tensionRule intent))

/-- Modelled from the spec: the full pipeline over a constructed graph: role
detection, then pattern detection, then tension analysis. -/
def runPipeline (cfg : AnalysisConfig) (g : SchemaGraph) :
    List TableRoleResult × List DetectedPattern × List DesignTension :=
  let roles := g.tablesList.map detectRole
  let patterns := detectPatterns cfg g
  (roles, patterns, analyzeTensions patterns roles cfg.intent)

/-! ## Statement helpers and concrete sample data -/

/-- The part of a column's Mermaid line before the constraint markers. -/
def columnLineBase (column : Column) : String :=
  ("        " : String) ++ sanitizeRawType column.data_type.raw ++ (" ")
    ++ replaceChar ' ' '_' column.name

/-- The table has a primary key containing this column's name. -/
def pkMarks (t : Table) (c : Column) : Prop :=
  ∃ pk, t.primary_key = some pk ∧ c.name ∈ pk.columns

/-- Some foreign key of the table contains this column's name. -/
def fkMarks (t : Table) (c : Column) : Prop :=
  ∃ fk ∈ t.foreign_keys, c.name ∈ fk.columns

instance (t : Table) (c : Column) : Decidable (pkMarks t c) := by
  unfold pkMarks
  match t.primary_key with
  | some pk =>
    exact decidable_of_iff (c.name ∈ pk.columns) (by simp)
  | none => exact isFalse (by simp)

instance (t : Table) (c : Column) : Decidable (fkMarks t c) := by
  unfold fkMarks
  infer_instance

/-- The `integer` sample type. -/
def intType : DataType := ⟨("integer" : String), .integer⟩

/-- Sample `users` table (mirrors the generator's test data). -/
def demoUsers : Table :=
  { name := ("users" : String), schema := ("public" : String),
    columns := [⟨("id" : String), intType, false⟩,
                ⟨("email" : String), ⟨("varchar" : String), .text⟩, false⟩],
    primary_key := some ⟨("users_pkey" : String), [("id" : String)]⟩ }

/-- Sample `orders` table with a foreign key to `users`. -/
def demoOrders : Table :=
  { name := ("orders" : String), schema := ("public" : String),
    columns := [⟨("id" : String), intType, false⟩,
                ⟨("user_id" : String), intType, false⟩,
                ⟨("total" : String), ⟨("decimal" : String), .decimal⟩, true⟩],
    primary_key := some ⟨("orders_pkey" : String), [("id" : String)]⟩,
    foreign_keys := [⟨("orders_user_id_fkey" : String), [("user_id" : String)],
                     ("users" : String), ("public" : String), [("id" : String)]⟩] }

/-- Sample two-table graph. -/
def demoGraph : SchemaGraph :=
  ⟨[(("public.users" : String), demoUsers), (("public.orders" : String), demoOrders)]⟩

/-- A table whose foreign key dangles (its target is absent from any
single-table graph containing only this table). -/
def demoDanglingOrders : Table :=
  { name := ("orders" : String), schema := ("public" : String),
    columns := [⟨("id" : String), intType, false⟩,
                ⟨("user_id" : String), intType, false⟩],
    primary_key := some ⟨("orders_pkey" : String), [("id" : String)]⟩,
    foreign_keys := [⟨("orders_user_id_fkey" : String), [("user_id" : String)],
                     ("users" : String), ("public" : String), [("id" : String)]⟩] }

/-- A junction table: composite primary key of two foreign-key columns and no
other columns. -/
def demoJunction : Table :=
  { name := ("user_roles" : String), schema := ("public" : String),
    columns := [⟨("user_id" : String), intType, false⟩,
                ⟨("role_id" : String), intType, false⟩],
    primary_key := some ⟨("user_roles_pkey" : String),
                         [("user_id" : String), ("role_id" : String)]⟩,
    foreign_keys := [⟨("fk_user" : String), [("user_id" : String)],
                     ("users" : String), ("public" : String), [("id" : String)]⟩,
                     ⟨("fk_role" : String), [("role_id" : String)],
                     ("roles" : String), ("public" : String), [("id" : String)]⟩] }

/-- A table with a nullable boolean `is_deleted` column. -/
def demoSoftDelete : Table :=
  { name := ("items" : String), schema := ("public" : String),
    columns := [⟨("id" : String), intType, false⟩,
                ⟨("is_deleted" : String), ⟨("boolean" : String), .boolean⟩, true⟩],
    primary_key := some ⟨("items_pkey" : String), [("id" : String)]⟩ }

/-- The same table with `is_deleted` declared NOT NULL. -/
def demoHardDelete : Table :=
  { name := ("items" : String), schema := ("public" : String),
    columns := [⟨("id" : String), intType, false⟩,
                ⟨("is_deleted" : String), ⟨("boolean" : String), .boolean⟩, false⟩],
    primary_key := some ⟨("items_pkey" : String), [("id" : String)]⟩ }

/-- A sample design tension (high severity, one large alternative). -/
def demoTensionA : DesignTension :=
  ⟨.read_complexity, .high, ("tension a" : String), [],
   [⟨("rebuild" : String), .large⟩], []⟩

/-- A second sample tension with the same severity and efforts as
`demoTensionA` but a different description. -/
def demoTensionB : DesignTension :=
  ⟨.read_complexity, .high, ("tension b" : String), [],
   [⟨("rewrite" : String), .large⟩], []⟩

/-- A medium-severity tension with one small alternative. -/
def demoTensionC : DesignTension :=
  ⟨.write_amplification, .medium, ("tension c" : String), [],
   [⟨("index" : String), .small⟩], []⟩

/-- Modelled from the spec: the numeric position of each role in the declared
priority ordering (`rolesPriority`). -/
def priorityIndex : RoleType → Nat
  | .entity => 0
  | .junction => 1
  | .lookup => 2
  | .audit => 3
  | .dimension => 4
  | .fact => 5
  | .system => 6

/-- The primary key of the sample junction table. -/
def demoJunctionPk : PrimaryKey :=
  ⟨("user_roles_pkey" : String), [("user_id" : String), ("role_id" : String)]⟩

/-- The single-table graph built from the dangling-FK sample table. -/
def demoDanglingGraph : SchemaGraph :=
  ⟨[(("public.orders" : String), demoDanglingOrders)]⟩

/-- The warnings construction records for the dangling-FK sample. -/
def demoDanglingWarnings : List GraphWarning :=
  [.danglingReference ("public.orders" : String) ("orders_user_id_fkey" : String)
    ("public.users" : String)]

/-- The soft-delete pattern detected on the sample table. -/
def demoSoftPattern : DetectedPattern :=
  ⟨.soft_delete, .lifecycle, [("public.items" : String)], 7/10,
   [⟨("deletion_marker_column_is_deleted" : String), 7/10⟩]⟩

/-- A single-table graph containing the soft-delete sample table. -/
def demoPatternGraph : SchemaGraph :=
  ⟨[(("public.items" : String), demoSoftDelete)]⟩

/-! ## Helper lemmas -/

theorem foldl_append_singleton {α β : Type} (g : α → β) :
    ∀ (l : List α) (init : List β), l.foldl (fun acc x => acc ++ [g x]) init = init ++ l.map g := by
  intro l
  induction l with
  | nil => simp
  | cons x xs ih =>
    intro init
    rw [List.foldl_cons, ih]
    simp

theorem blockFold_eq :
    ∀ (l : List Table) (init : List String),
    l.foldl (fun acc table =>
      (table.columns.foldl (fun acc2 column => acc2 ++ [columnLine table column])
        (acc ++ [("    " : String) ++ table.name ++ (" \x7b")])) ++ [("    \x7d" : String), ("" : String)]) init
      = init ++ l.flatMap tableBlock := by
  intro l
  induction l with
  | nil => simp
  | cons t ts ih =>
    intro init
    rw [List.foldl_cons, foldl_append_singleton, ih]
    simp [tableBlock]

theorem relFold_eq :
    ∀ (l : List Table) (init : List String),
    l.foldl (fun acc table => table.foreign_keys.foldl (fun acc2 fk => acc2 ++ [fkLine table fk]) acc) init
      = init ++ l.flatMap (fun t => t.foreign_keys.map (fkLine t)) := by
  intro l
  induction l with
  | nil => simp
  | cons t ts ih =>
    intro init
    rw [List.foldl_cons, foldl_append_singleton, ih]
    simp

theorem mermaidLines_eq (g : SchemaGraph) :
    mermaidLines g = ("erDiagram" : String) :: ("" : String)
      :: (g.tablesList.flatMap tableBlock
          ++ g.tablesList.flatMap (fun t => t.foreign_keys.map (fkLine t))) := by
  simp only [mermaidLines]
  rw [blockFold_eq, relFold_eq]
  simp

theorem intercalate_go_append (s : String) :
    ∀ (l : List String) (a b : String),
    String.intercalate.go (a ++ b) s l = a ++ String.intercalate.go b s l := by
  intro l
  induction l with
  | nil => intro a b; simp [String.intercalate.go]
  | cons c cs ih =>
    intro a b
    rw [String.intercalate.go, String.intercalate.go, String.append_assoc, String.append_assoc, ih, String.append_assoc]

theorem intercalate_cons_cons (s a b : String) (l : List String) :
    String.intercalate s (a :: b :: l) = a ++ s ++ String.intercalate s (b :: l) := by
  show String.intercalate.go a s (b :: l) = a ++ s ++ String.intercalate.go b s l
  rw [String.intercalate.go, String.append_assoc, intercalate_go_append, intercalate_go_append,
    String.append_assoc]

theorem mem_removeChar {c x : Char} {s : String} (h : x ∈ (removeChar c s).data) :
    x ∈ s.data ∧ x ≠ c := by
  simp only [removeChar, List.mem_filter, bne_iff_ne, ne_eq] at h
  exact ⟨h.1, h.2⟩

theorem space_not_mem_replaceChar (nm : String) : (' ') ∉ (replaceChar ' ' '_' nm).data := by
  intro h
  simp only [replaceChar, List.mem_map] at h
  obtain ⟨y, _, hy⟩ := h
  by_cases hc : y = ' ' <;> simp [hc] at hy

theorem sanitize_no_bad_chars (raw : String) :
    (' ') ∉ (sanitizeRawType raw).data ∧ ('(') ∉ (sanitizeRawType raw).data
      ∧ (')') ∉ (sanitizeRawType raw).data ∧ ('[') ∉ (sanitizeRawType raw).data
      ∧ (']') ∉ (sanitizeRawType raw).data := by
  unfold sanitizeRawType
  refine ⟨?_, ?_, ?_, ?_, ?_⟩
  · intro h
    have h1 := (mem_removeChar h).1
    have h2 := (mem_removeChar h1).1
    have h3 := (mem_removeChar h2).1
    have h4 := (mem_removeChar h3).1
    exact space_not_mem_replaceChar raw h4
  · intro h
    have h1 := (mem_removeChar h).1
    have h2 := (mem_removeChar h1).1
    have h3 := (mem_removeChar h2).1
    exact (mem_removeChar h3).2 rfl
  · intro h
    have h1 := (mem_removeChar h).1
    have h2 := (mem_removeChar h1).1
    exact (mem_removeChar h2).2 rfl
  · intro h
    have h1 := (mem_removeChar h).1
    exact (mem_removeChar h1).2 rfl
  · intro h
    exact (mem_removeChar h).2 rfl
theorem insertTables_ok_iff : ∀ (ts : List Table) (acc : List (String × Table)),
    (∃ r, insertTables ts acc = .ok r)
      ↔ ((ts.map Table.qualifiedName).Nodup
          ∧ ∀ q ∈ ts.map Table.qualifiedName, q ∉ acc.map Prod.fst) := by
  intro ts
  induction ts with
  | nil =>
    intro acc
    simp [insertTables]
  | cons t ts ih =>
    intro acc
    by_cases h : (acc.map Prod.fst).contains t.qualifiedName = true
    · rw [insertTables, if_pos h]
      constructor
      · rintro ⟨r, hr⟩
        cases hr
      · rintro ⟨hnd, hall⟩
        exact absurd (by simpa using h) (hall t.qualifiedName (by simp))
    · rw [insertTables, if_neg h]
      rw [ih]
      have hna : t.qualifiedName ∉ acc.map Prod.fst := by simpa using h
      simp only [List.map_cons, List.nodup_cons, List.map_append, List.mem_append,
        List.mem_cons, List.map_cons, List.map_nil, List.mem_singleton]
      constructor
      · rintro ⟨hnd, hall⟩
        refine ⟨⟨?_, hnd⟩, ?_⟩
        · intro hmem
          exact hall _ hmem (Or.inr (Or.inl rfl))
        · rintro q (rfl | hq)
          · exact hna
          · exact fun hin => hall q hq (Or.inl hin)
      · rintro ⟨⟨hni, hnd⟩, hall⟩
        refine ⟨hnd, fun q hq => ?_⟩
        rintro (hin | rfl | hnil)
        · exact hall q (Or.inr hq) hin
        · exact hni hq
        · cases hnil

theorem insertTables_keys : ∀ (ts : List Table) (acc r : List (String × Table)),
    insertTables ts acc = .ok r → (∀ e ∈ acc, e.1 = e.2.qualifiedName) →
    ∀ e ∈ r, e.1 = e.2.qualifiedName := by
  intro ts
  induction ts with
  | nil =>
    intro acc r h hacc
    cases h
    exact hacc
  | cons t ts ih =>
    intro acc r h hacc
    rw [insertTables] at h
    by_cases hc : (acc.map Prod.fst).contains t.qualifiedName = true
    · rw [if_pos hc] at h
      cases h
    · rw [if_neg hc] at h
      refine ih _ _ h ?_
      intro e he
      rcases List.mem_append.mp he with h1 | h2
      · exact hacc e h1
      · rw [List.mem_singleton] at h2
        subst h2
        rfl

theorem pickBest_le : ∀ (xs : List (RoleType × ℚ)) (x : RoleType × ℚ),
    x.2 ≤ (pickBest x xs).2 ∧ ∀ y ∈ xs, y.2 ≤ (pickBest x xs).2 := by
  intro xs
  induction xs with
  | nil =>
    intro x
    exact ⟨le_refl _, by simp⟩
  | cons y ys ih =>
    intro x
    rw [pickBest]
    by_cases h : x.2 < y.2
    · rw [if_pos h]
      refine ⟨le_of_lt (lt_of_lt_of_le h (ih y).1), ?_⟩
      intro z hz
      rcases List.mem_cons.mp hz with rfl | hz'
      · exact (ih z).1
      · exact (ih y).2 z hz'
    · rw [if_neg h]
      refine ⟨(ih x).1, ?_⟩
      intro z hz
      rcases List.mem_cons.mp hz with rfl | hz'
      · exact le_trans (le_of_not_lt h) (ih x).1
      · exact (ih x).2 z hz'

theorem pickBest_mem : ∀ (xs : List (RoleType × ℚ)) (x : RoleType × ℚ),
    pickBest x xs = x ∨ pickBest x xs ∈ xs := by
  intro xs
  induction xs with
  | nil =>
    intro x
    exact Or.inl rfl
  | cons y ys ih =>
    intro x
    rw [pickBest]
    by_cases h : x.2 < y.2
    · rw [if_pos h]
      rcases ih y with he | hm
      · refine Or.inr ?_
        rw [he]
        exact List.mem_cons_self y ys
      · exact Or.inr (List.mem_cons_of_mem _ hm)
    · rw [if_neg h]
      rcases ih x with he | hm
      · exact Or.inl he
      · exact Or.inr (List.mem_cons_of_mem _ hm)

theorem pickBest_first_max : ∀ (xs : List (RoleType × ℚ)) (x : RoleType × ℚ),
    (pickBest x xs = x ∧ ∀ y ∈ xs, y.2 ≤ x.2)
    ∨ ∃ (i : Nat) (hi : i < xs.length),
        pickBest x xs = xs.get ⟨i, hi⟩
        ∧ x.2 < (xs.get ⟨i, hi⟩).2
        ∧ (∀ y ∈ xs, y.2 ≤ (xs.get ⟨i, hi⟩).2)
        ∧ ∀ (j : Nat) (hj : j < xs.length), (xs.get ⟨j, hj⟩).2 = (xs.get ⟨i, hi⟩).2 → i ≤ j := by
  intro xs
  induction xs with
  | nil =>
    intro x
    exact Or.inl ⟨rfl, by simp⟩
  | cons y ys ih =>
    intro x
    rw [pickBest]
    by_cases h : x.2 < y.2
    · rw [if_pos h]
      rcases ih y with ⟨heq, hmax⟩ | ⟨i, hi, heq, hlt, hmax, hfirst⟩
      · refine Or.inr ⟨0, by simp, ?_, ?_, ?_, ?_⟩
        · exact heq
        · exact h
        · intro z hz
          rcases List.mem_cons.mp hz with rfl | hz'
          · exact le_refl _
          · exact hmax z hz'
        · intro j hj _
          exact Nat.zero_le j
      · refine Or.inr ⟨i + 1, by simpa using Nat.succ_lt_succ hi, ?_, ?_, ?_, ?_⟩
        · exact heq
        · exact lt_trans h hlt
        · intro z hz
          rcases List.mem_cons.mp hz with rfl | hz'
          · exact le_of_lt hlt
          · exact hmax z hz'
        · intro j hj hje
          match j with
          | 0 =>
            exact absurd hje (ne_of_lt hlt)
          | j' + 1 =>
            exact Nat.succ_le_succ (hfirst j' (Nat.lt_of_succ_lt_succ hj) hje)
    · rw [if_neg h]
      have hyx : y.2 ≤ x.2 := le_of_not_lt h
      rcases ih x with ⟨heq, hmax⟩ | ⟨i, hi, heq, hlt, hmax, hfirst⟩
      · refine Or.inl ⟨heq, ?_⟩
        intro z hz
        rcases List.mem_cons.mp hz with rfl | hz'
        · exact hyx
        · exact hmax z hz'
      · refine Or.inr ⟨i + 1, by simpa using Nat.succ_lt_succ hi, ?_, ?_, ?_, ?_⟩
        · exact heq
        · exact hlt
        · intro z hz
          rcases List.mem_cons.mp hz with rfl | hz'
          · exact le_of_lt (lt_of_le_of_lt hyx hlt)
          · exact hmax z hz'
        · intro j hj hje
          match j with
          | 0 =>
            exact absurd hje (ne_of_lt (lt_of_le_of_lt hyx hlt))
          | j' + 1 =>
            exact Nat.succ_le_succ (hfirst j' (Nat.lt_of_succ_lt_succ hj) hje)

theorem primaryOf_spec (t : Table) (r : RoleType) :
    roleScore t r ≤ (primaryOf t).2
    ∧ (primaryOf t).2 = roleScore t (primaryOf t).1
    ∧ (roleScore t r = (primaryOf t).2 → priorityIndex (primaryOf t).1 ≤ priorityIndex r) := by
  have hprim : primaryOf t = pickBest (RoleType.entity, roleScore t .entity)
      [(RoleType.junction, roleScore t .junction), (RoleType.lookup, roleScore t .lookup),
       (RoleType.audit, roleScore t .audit), (RoleType.dimension, roleScore t .dimension),
       (RoleType.fact, roleScore t .fact), (RoleType.system, roleScore t .system)] := rfl
  set x : RoleType × ℚ := (RoleType.entity, roleScore t .entity) with hx
  set xs : List (RoleType × ℚ) :=
      [(RoleType.junction, roleScore t .junction), (RoleType.lookup, roleScore t .lookup),
       (RoleType.audit, roleScore t .audit), (RoleType.dimension, roleScore t .dimension),
       (RoleType.fact, roleScore t .fact), (RoleType.system, roleScore t .system)] with hxs
  rw [hprim]
  refine ⟨?_, ?_, ?_⟩
  · cases r with
    | entity => exact (pickBest_le xs x).1
    | junction =>
      exact (pickBest_le xs x).2 (RoleType.junction, roleScore t .junction) (by simp [hxs])
    | lookup =>
      exact (pickBest_le xs x).2 (RoleType.lookup, roleScore t .lookup) (by simp [hxs])
    | audit =>
      exact (pickBest_le xs x).2 (RoleType.audit, roleScore t .audit) (by simp [hxs])
    | dimension =>
      exact (pickBest_le xs x).2 (RoleType.dimension, roleScore t .dimension) (by simp [hxs])
    | fact =>
      exact (pickBest_le xs x).2 (RoleType.fact, roleScore t .fact) (by simp [hxs])
    | system =>
      exact (pickBest_le xs x).2 (RoleType.system, roleScore t .system) (by simp [hxs])
  · rcases pickBest_mem xs x with he | hm
    · rw [he]
    · simp only [hxs, List.mem_cons, List.not_mem_nil, or_false] at hm
      rcases hm with h | h | h | h | h | h
      all_goals rw [h]
  · intro hre
    rcases pickBest_first_max xs x with ⟨heq, hmax⟩ | ⟨i, hi, heq, hlt, hmax, hfirst⟩
    · rw [heq]
      exact Nat.zero_le _
    · have hb2 : (pickBest x xs).2 = (xs.get ⟨i, hi⟩).2 := by rw [heq]
      have hpi : priorityIndex (xs.get ⟨i, hi⟩).1 = i + 1 := by
        match i, hi with
        | 0, _ => rfl
        | 1, _ => rfl
        | 2, _ => rfl
        | 3, _ => rfl
        | 4, _ => rfl
        | 5, _ => rfl
      have hlen : xs.length = 6 := rfl
      rw [heq, hpi]
      cases r with
      | entity =>
        exact absurd (hre.trans hb2) (ne_of_lt (by simpa [hb2] using hlt))
      | junction =>
        have := hfirst 0 (by omega) (hre.trans hb2)
        simpa [priorityIndex] using Nat.succ_le_succ this
      | lookup =>
        have := hfirst 1 (by omega) (hre.trans hb2)
        simpa [priorityIndex] using Nat.succ_le_succ this
      | audit =>
        have := hfirst 2 (by omega) (hre.trans hb2)
        simpa [priorityIndex] using Nat.succ_le_succ this
      | dimension =>
        have := hfirst 3 (by omega) (hre.trans hb2)
        simpa [priorityIndex] using Nat.succ_le_succ this
      | fact =>
        have := hfirst 4 (by omega) (hre.trans hb2)
        simpa [priorityIndex] using Nat.succ_le_succ this
      | system =>
        have := hfirst 5 (by omega) (hre.trans hb2)
        simpa [priorityIndex] using Nat.succ_le_succ this

theorem junction_scenario_signals (t : Table) (pk : PrimaryKey)
    (hpk : t.primary_key = some pk)
    (hlen : pk.columns.length = 2)
    (hfk : ∀ nm ∈ pk.columns, isFkColumn t nm = true)
    (hcols : ∀ c ∈ t.columns, c.name ∈ pk.columns) :
    roleSignals t = [⟨.junction, ("composite_pk_all_foreign_keys" : String), 9/10⟩] := by
  have hjs : junctionSignal t = [⟨.junction, ("composite_pk_all_foreign_keys" : String), 9/10⟩] := by
    unfold junctionSignal
    rw [hpk]
    dsimp only
    rw [if_pos]
    simp only [Bool.and_eq_true, decide_eq_true_eq, List.all_eq_true]
    exact ⟨⟨by omega, fun nm hnm => hfk nm hnm⟩, fun c hc => by simpa using hcols c hc⟩
  have hne : t.foreign_keys ≠ [] := by
    have h2 : pk.columns ≠ [] := by
      intro hnil
      rw [hnil] at hlen
      simp at hlen
    obtain ⟨nm, hnm⟩ := List.exists_mem_of_ne_nil _ h2
    have hany := hfk nm hnm
    rw [isFkColumn] at hany
    simp only [List.any_eq_true] at hany
    obtain ⟨fk, hfkm, _⟩ := hany
    intro hnil
    rw [hnil] at hfkm
    cases hfkm
  have hl : lookupSignal t = [] := by
    rw [lookupSignal, if_neg]
    intro h
    rw [Bool.and_eq_true, Bool.and_eq_true] at h
    exact hne (List.isEmpty_iff.mp h.1.1)
  have ha : auditSignal t = [] := by
    rw [auditSignal, if_neg]
    intro h
    rw [Bool.and_eq_true] at h
    have h2 := h.2
    rw [hpk] at h2
    cases h2
  rw [roleSignals, hjs, hl, ha]
  simp

theorem sumWeights_nonneg (ss : List PatternSignal) (h : ∀ x ∈ ss, 0 ≤ x.weight) :
    0 ≤ sumWeights ss := by
  induction ss with
  | nil => simp [sumWeights]
  | cons s ss ih =>
    rw [sumWeights, List.foldr_cons]
    have h1 : 0 ≤ s.weight := h s (List.mem_cons_self s ss)
    have h2 : 0 ≤ sumWeights ss := ih (fun x hx => h x (List.mem_cons_of_mem _ hx))
    exact add_nonneg h1 h2

theorem le_sumWeights (ss : List PatternSignal) (s : PatternSignal) (hs : s ∈ ss)
    (h : ∀ x ∈ ss, 0 ≤ x.weight) : s.weight ≤ sumWeights ss := by
  induction ss with
  | nil => cases hs
  | cons a ss ih =>
    rw [sumWeights, List.foldr_cons]
    rcases List.mem_cons.mp hs with rfl | hmem
    · have h2 : 0 ≤ sumWeights ss := sumWeights_nonneg ss (fun x hx => h x (List.mem_cons_of_mem _ hx))
      exact le_add_of_nonneg_right h2
    · have h1 : 0 ≤ a.weight := h a (List.mem_cons_self a ss)
      have := ih hmem (fun x hx => h x (List.mem_cons_of_mem _ hx))
      calc s.weight ≤ sumWeights ss := this
        _ ≤ a.weight + sumWeights ss := le_add_of_nonneg_left h1

theorem clip01_nonneg (q : ℚ) : 0 ≤ clip01 q := le_max_left 0 _

theorem clip01_le_one (q : ℚ) : clip01 q ≤ 1 :=
  max_le (by norm_num) (min_le_left _ _)

theorem le_clip01 (q c : ℚ) (h1 : c ≤ q) (h2 : c ≤ 1) : c ≤ clip01 q :=
  le_trans (le_min h2 h1) (le_max_right _ _)

theorem demo_soft_delete_patterns :
    detectPatterns defaultConfig ⟨[(("public.items" : String), demoSoftDelete)]⟩
      = [⟨.soft_delete, .lifecycle, [("public.items" : String)], 7/10,
          [⟨("deletion_marker_column_is_deleted" : String), 7/10⟩]⟩] := by
  have h1 : softDeleteSignals demoSoftDelete
      = [⟨("deletion_marker_column_is_deleted" : String), 7/10⟩] := by
    rw [softDeleteSignals]
    rfl
  have h2 : scdSignals demoSoftDelete = [] := by
    rw [scdSignals]
    rfl
  have h3 : junctionPatternSignals demoSoftDelete = [] := by
    rw [junctionPatternSignals]
    rfl
  have hq : demoSoftDelete.qualifiedName = ("public.items" : String) := rfl
  rw [detectPatterns]
  show detectPatternsForTable defaultConfig demoSoftDelete ++ [] = _
  rw [detectPatternsForTable, patternCandidates, h1, h2, h3, hq]
  norm_num [List.filterMap_cons, defaultConfig, patternConfidence, clip01, sumWeights,
    min_def, max_def, patternCategoryOf]

theorem minEffortRank_le (t : DesignTension) : minEffortRank t ≤ 3 := by
  rw [minEffortRank]
  induction t.alternatives with
  | nil => simp
  | cons a l ih =>
    rw [List.foldr_cons]
    exact le_trans (min_le_right _ _) ih

theorem sevRank_le (s : Severity) : sevRank s ≤ 4 := by
  cases s <;> simp [sevRank]

theorem tensionKey_le_iff (a b : DesignTension) :
    tensionKey a ≤ tensionKey b
      ↔ (sevRank b.severity < sevRank a.severity
          ∨ (sevRank a.severity = sevRank b.severity ∧ minEffortRank a ≤ minEffortRank b)) := by
  have ha4 := sevRank_le a.severity
  have hb4 := sevRank_le b.severity
  have hae := minEffortRank_le a
  have hbe := minEffortRank_le b
  rw [tensionKey, tensionKey]
  omega

theorem tensionLE_trans (x y z : DesignTension) :
    tensionLE x y → tensionLE y z → tensionLE x z := by
  simp only [tensionLE, decide_eq_true_eq]
  omega

theorem tensionLE_total (x y : DesignTension) : tensionLE x y || tensionLE y x := by
  simp only [tensionLE, Bool.or_eq_true, decide_eq_true_eq]
  omega


/-- Claim C1: for a fixed Schema Graph, Intent and configuration, running the
full pipeline (role detection, pattern detection, tension analysis) twice
yields identical ordered outputs, and the tension stage is a pure function of
(patterns, roles, Intent). -/
theorem pipeline_determinism (g g' : SchemaGraph) (cfg cfg' : AnalysisConfig)
    (patterns patterns' : List DetectedPattern) (roles roles' : List TableRoleResult)
    (intent intent' : Intent)
    (hg : g = g') (hcfg : cfg = cfg') (hp : patterns = patterns')
    (hr : roles = roles') (hi : intent = intent') :
    runPipeline cfg g = runPipeline cfg' g'
    ∧ analyzeTensions patterns roles intent = analyzeTensions patterns' roles' intent' := by
  subst hg
  subst hcfg
  subst hp
  subst hr
  subst hi
  exact ⟨rfl, rfl⟩

theorem pipeline_determinism_witness :
    (demoGraph = demoGraph ∧ defaultConfig = defaultConfig
      ∧ ([] : List DetectedPattern) = [] ∧ ([] : List TableRoleResult) = []
      ∧ defaultIntent = defaultIntent)
    ∧ runPipeline defaultConfig demoGraph = runPipeline defaultConfig demoGraph
    ∧ analyzeTensions [] [] defaultIntent = analyzeTensions [] [] defaultIntent :=
  ⟨⟨rfl, rfl, rfl, rfl, rfl⟩,
   pipeline_determinism demoGraph demoGraph defaultConfig defaultConfig [] [] [] []
     defaultIntent defaultIntent rfl rfl rfl rfl rfl⟩

/-- Claim C2: graph construction succeeds (returns a graph, with warnings)
exactly when the qualified table names are pairwise distinct; on a duplicate it
fails with a `GraphConstructionError` and no graph is returned. -/
theorem graph_construction_ok_iff_nodup (ts : List Table) :
    (∃ g, buildGraph ts = .ok g) ↔ (ts.map Table.qualifiedName).Nodup := by
  rw [buildGraph]
  constructor
  · rintro ⟨g, hg⟩
    cases hi : insertTables ts [] with
    | error e =>
      rw [hi] at hg
      cases hg
    | ok r =>
      exact (((insertTables_ok_iff ts [])).mp ⟨r, hi⟩).1
  · intro h
    obtain ⟨r, hr⟩ := (insertTables_ok_iff ts []).mpr ⟨h, by simp⟩
    rw [hr]
    exact ⟨_, rfl⟩

/-- Claim C3: for every list of detected tensions, the ranked sequence is a
permutation of it, sorted by severity descending then minimum alternative
effort ascending; and two tensions equal on both keys keep their detection
order (stable sort). -/
theorem tension_ranking_sorted_stable (l : List DesignTension) (a b : DesignTension)
    (hsub : List.Sublist [a, b] l)
    (hsev : a.severity = b.severity) (heff : minEffortRank a = minEffortRank b) :
    (∀ l' : List DesignTension,
        List.Perm (sortTensions l') l'
        ∧ (sortTensions l').Pairwise (fun x y =>
            sevRank y.severity < sevRank x.severity
              ∨ (sevRank x.severity = sevRank y.severity ∧ minEffortRank x ≤ minEffortRank y)))
    ∧ List.Sublist [a, b] (sortTensions l) := by
  constructor
  · intro l'
    refine ⟨List.mergeSort_perm l' tensionLE, ?_⟩
    have hs := List.sorted_mergeSort tensionLE_trans tensionLE_total l'
    refine hs.imp ?_
    intro x y h
    exact (tensionKey_le_iff x y).mp (by simpa [tensionLE] using h)
  · refine List.pair_sublist_mergeSort tensionLE_trans tensionLE_total ?_ hsub
    show tensionLE a b = true
    simp only [tensionLE, decide_eq_true_eq, tensionKey, hsev, heff]
    omega

theorem tension_ranking_sorted_stable_witness :
    (List.Sublist [demoTensionA, demoTensionB] [demoTensionA, demoTensionB]
      ∧ demoTensionA.severity = demoTensionB.severity
      ∧ minEffortRank demoTensionA = minEffortRank demoTensionB)
    ∧ List.Sublist [demoTensionA, demoTensionB]
        (sortTensions [demoTensionA, demoTensionB]) :=
  ⟨⟨List.Sublist.refl _, rfl, rfl⟩,
   (tension_ranking_sorted_stable [demoTensionA, demoTensionB] demoTensionA demoTensionB
     (List.Sublist.refl _) rfl rfl).2⟩

/-- Claim C4: a table whose primary key is exactly two foreign-key columns
with no other columns gets primary role JUNCTION at confidence at least 0.8;
in general the primary role maximizes the summed signal weights, its
confidence is its own aggregate score, and ties are broken by the fixed
declared priority ordering over role types. -/
theorem role_junction_classification_argmax (t : Table) (pk : PrimaryKey)
    (hpk : t.primary_key = some pk)
    (hlen : pk.columns.length = 2)
    (hfk : ∀ nm ∈ pk.columns, isFkColumn t nm = true)
    (hcols : ∀ c ∈ t.columns, c.name ∈ pk.columns) :
    (detectRole t).primary = .junction
    ∧ 8/10 ≤ (detectRole t).confidence
    ∧ ∀ (u : Table) (r : RoleType),
        roleScore u r ≤ (primaryOf u).2
        ∧ (primaryOf u).2 = roleScore u (primaryOf u).1
        ∧ (roleScore u r = (primaryOf u).2 → priorityIndex (primaryOf u).1 ≤ priorityIndex r) := by
  have hsig := junction_scenario_signals t pk hpk hlen hfk hcols
  have hj : roleScore t .junction = 9/10 := by
    rw [roleScore, hsig]
    simp
  have hprim : primaryOf t = (.junction, 9/10) := by
    have he : roleScore t .entity = 0 := by
      rw [roleScore, hsig]
      simp
    have hlk : roleScore t .lookup = 0 := by
      rw [roleScore, hsig]
      simp
    have hau : roleScore t .audit = 0 := by
      rw [roleScore, hsig]
      simp
    have hdm : roleScore t .dimension = 0 := by
      rw [roleScore, hsig]
      simp
    have hfa : roleScore t .fact = 0 := by
      rw [roleScore, hsig]
      simp
    have hsy : roleScore t .system = 0 := by
      rw [roleScore, hsig]
      simp
    have hsr : scoredRoles t = [(.entity, 0), (.junction, 9/10), (.lookup, 0), (.audit, 0),
        (.dimension, 0), (.fact, 0), (.system, 0)] := by
      rw [scoredRoles, rolesPriority]
      simp [he, hj, hlk, hau, hdm, hfa, hsy]
    unfold primaryOf
    rw [hsr]
    dsimp only
    norm_num [pickBest]
  refine ⟨?_, ?_, fun u r => primaryOf_spec u r⟩
  · show (primaryOf t).1 = .junction
    rw [hprim]
  · show 8/10 ≤ (primaryOf t).2
    rw [hprim]
    norm_num

theorem role_junction_classification_argmax_witness :
    (demoJunction.primary_key = some demoJunctionPk
      ∧ demoJunctionPk.columns.length = 2
      ∧ (∀ nm ∈ demoJunctionPk.columns, isFkColumn demoJunction nm = true)
      ∧ (∀ c ∈ demoJunction.columns, c.name ∈ demoJunctionPk.columns))
    ∧ (detectRole demoJunction).primary = .junction
    ∧ 8/10 ≤ (detectRole demoJunction).confidence :=
  ⟨⟨rfl, rfl, by decide, by decide⟩,
   (role_junction_classification_argmax demoJunction demoJunctionPk rfl rfl
     (by decide) (by decide)).1,
   (role_junction_classification_argmax demoJunction demoJunctionPk rfl rfl
     (by decide) (by decide)).2.1⟩

/-- Claim C5: a table with a nullable boolean column named `is_deleted` yields
a soft-delete pattern with confidence at least 0.5, while a table whose
deletion-marker columns are all NOT NULL yields no soft-delete pattern. -/
theorem soft_delete_pattern_detection (t : Table) (c : Column)
    (hc : c ∈ t.columns) (hname : c.name = ("is_deleted" : String))
    (hnull : c.nullable = true) (hbool : c.data_type.category = .boolean)
    (u : Table)
    (hu : ∀ c2 ∈ u.columns, c2.name ∈ deletionMarkerNames → c2.nullable = false) :
    (∃ p ∈ detectPatternsForTable defaultConfig t,
        p.pattern = .soft_delete ∧ 1/2 ≤ p.confidence)
    ∧ ∀ p ∈ detectPatternsForTable defaultConfig u, p.pattern ≠ .soft_delete := by
  constructor
  · have hcf : c ∈ t.columns.filter (fun c =>
        c.nullable
          && (c.data_type.category == .boolean || c.data_type.category == .datetime)
          && deletionMarkerNames.contains c.name) := by
      refine List.mem_filter.mpr ⟨hc, ?_⟩
      rw [hname, hnull, hbool]
      decide
    have hsmem : (⟨("deletion_marker_column_" : String) ++ c.name, 7/10⟩ : PatternSignal)
        ∈ softDeleteSignals t := by
      rw [softDeleteSignals]
      exact List.mem_map_of_mem _ hcf
    have hwnn : ∀ x ∈ softDeleteSignals t, 0 ≤ x.weight := by
      intro x hx
      rw [softDeleteSignals] at hx
      obtain ⟨c2, _, hc2⟩ := List.mem_map.mp hx
      rw [← hc2]
      norm_num
    have hsum : 7/10 ≤ sumWeights (softDeleteSignals t) :=
      le_sumWeights _ _ hsmem hwnn
    have hconf : 7/10 ≤ patternConfidence (softDeleteSignals t) :=
      le_clip01 _ _ hsum (by norm_num)
    have hlt : defaultConfig.thresholds PatternType.soft_delete
        < patternConfidence (softDeleteSignals t) := by
      have : defaultConfig.thresholds PatternType.soft_delete = 1/2 := rfl
      rw [this]
      calc (1:ℚ)/2 < 7/10 := by norm_num
        _ ≤ _ := hconf
    refine ⟨⟨.soft_delete, patternCategoryOf .soft_delete, [t.qualifiedName],
        patternConfidence (softDeleteSignals t), softDeleteSignals t⟩, ?_, rfl, ?_⟩
    · refine List.mem_filterMap.mpr ⟨(.soft_delete, softDeleteSignals t), ?_, ?_⟩
      · rw [patternCandidates]
        exact List.mem_cons_self _ _
      · dsimp only
        rw [decide_eq_true hlt]
        rfl
    · calc (1:ℚ)/2 ≤ 7/10 := by norm_num
        _ ≤ _ := hconf
  · have hempty : softDeleteSignals u = [] := by
      rw [softDeleteSignals]
      have : u.columns.filter (fun c =>
          c.nullable
            && (c.data_type.category == .boolean || c.data_type.category == .datetime)
            && deletionMarkerNames.contains c.name) = [] := by
        rw [List.filter_eq_nil_iff]
        intro c2 hc2
        intro hp
        rw [Bool.and_eq_true, Bool.and_eq_true] at hp
        have hnm : c2.name ∈ deletionMarkerNames := by
          have := hp.2
          simpa using this
        have := hu c2 hc2 hnm
        rw [this] at hp
        exact Bool.false_ne_true hp.1.1
      rw [this]
      rfl
    intro p hp
    obtain ⟨pc, hpc, hsome⟩ := List.mem_filterMap.mp hp
    rw [patternCandidates] at hpc
    rcases List.mem_cons.mp hpc with rfl | hpc2
    · rw [hempty] at hsome
      dsimp only at hsome
      have hno : ¬ (defaultConfig.thresholds PatternType.soft_delete < patternConfidence []) := by
        have h0 : patternConfidence ([] : List PatternSignal) = 0 := by
          rw [patternConfidence, sumWeights]
          simp [clip01]
        rw [h0]
        norm_num [defaultConfig]
      rw [decide_eq_false hno] at hsome
      simp at hsome
    · rcases List.mem_cons.mp hpc2 with rfl | hpc3
      · dsimp only at hsome
        split at hsome
        · cases hsome
          intro he
          cases he
        · cases hsome
      · rcases List.mem_cons.mp hpc3 with rfl | hpc4
        · dsimp only at hsome
          split at hsome
          · cases hsome
            intro he
            cases he
          · cases hsome
        · cases hpc4

theorem soft_delete_pattern_detection_witness :
    ((⟨("is_deleted" : String), ⟨("boolean" : String), .boolean⟩, true⟩ : Column)
        ∈ demoSoftDelete.columns
      ∧ (∀ c2 ∈ demoHardDelete.columns, c2.name ∈ deletionMarkerNames → c2.nullable = false))
    ∧ (∃ p ∈ detectPatternsForTable defaultConfig demoSoftDelete,
        p.pattern = .soft_delete ∧ 1/2 ≤ p.confidence)
    ∧ ∀ p ∈ detectPatternsForTable defaultConfig demoHardDelete,
        p.pattern ≠ .soft_delete :=
  ⟨⟨by decide, by decide⟩,
   (soft_delete_pattern_detection demoSoftDelete
     ⟨("is_deleted" : String), ⟨("boolean" : String), .boolean⟩, true⟩
     (by decide) rfl rfl rfl demoHardDelete (by decide)).1,
   (soft_delete_pattern_detection demoSoftDelete
     ⟨("is_deleted" : String), ⟨("boolean" : String), .boolean⟩, true⟩
     (by decide) rfl rfl rfl demoHardDelete (by decide)).2⟩

/-- Claim C6: every detected pattern has confidence in the closed interval
[0,1] (it is the clipped weighted signal sum) and is only reported when its
confidence exceeds the configured per-pattern threshold, whose default
is 0.5. -/
theorem pattern_confidence_bounds (cfg : AnalysisConfig) (g : SchemaGraph) (p : DetectedPattern)
    (hp : p ∈ detectPatterns cfg g) :
    0 ≤ p.confidence ∧ p.confidence ≤ 1
    ∧ cfg.thresholds p.pattern < p.confidence
    ∧ defaultConfig.thresholds p.pattern = 1/2 := by
  obtain ⟨t, _, hpt⟩ := List.mem_flatMap.mp hp
  obtain ⟨pc, _, hsome⟩ := List.mem_filterMap.mp hpt
  dsimp only at hsome
  split at hsome
  · rename_i hcond
    rw [Bool.and_eq_true, decide_eq_true_eq] at hcond
    cases hsome
    exact ⟨clip01_nonneg _, clip01_le_one _, hcond.2, rfl⟩
  · cases hsome

theorem pattern_confidence_bounds_witness :
    demoSoftPattern ∈ detectPatterns defaultConfig demoPatternGraph
    ∧ (0 ≤ demoSoftPattern.confidence ∧ demoSoftPattern.confidence ≤ 1
        ∧ defaultConfig.thresholds demoSoftPattern.pattern < demoSoftPattern.confidence
        ∧ defaultConfig.thresholds demoSoftPattern.pattern = 1/2) :=
  ⟨by
    rw [show detectPatterns defaultConfig demoPatternGraph
        = [demoSoftPattern] from demo_soft_delete_patterns]
    exact List.mem_cons_self _ _,
   pattern_confidence_bounds defaultConfig demoPatternGraph demoSoftPattern
     (by
       rw [show detectPatterns defaultConfig demoPatternGraph
           = [demoSoftPattern] from demo_soft_delete_patterns]
       exact List.mem_cons_self _ _)⟩

/-- Claim C7: a foreign key whose target table is absent from the graph is
recorded as a non-fatal `danglingReference` warning (construction still
succeeds), and report generation over the graph still completes, emitting the
relationship line for the dangling foreign key from its recorded name alone. -/
theorem dangling_fk_warning_nonfatal (ts : List Table) (g : SchemaGraph) (w : List GraphWarning)
    (t : Table) (fk : ForeignKey)
    (hb : buildGraph ts = .ok (g, w))
    (ht : t ∈ g.tablesList)
    (hfk : fk ∈ t.foreign_keys)
    (hd : fkTargetQualified fk ∉ g.tables.map Prod.fst) :
    GraphWarning.danglingReference t.qualifiedName fk.name (fkTargetQualified fk) ∈ w
    ∧ fkLine t fk ∈ mermaidLines g
    ∧ generate_mermaid_erd g = String.intercalate ("\n") (mermaidLines g) := by
  have hokk : ∃ entries, insertTables ts [] = .ok entries
      ∧ g = ⟨entries⟩ ∧ w = danglingWarnings entries := by
    rw [buildGraph] at hb
    cases hi : insertTables ts [] with
    | error e =>
      rw [hi] at hb
      cases hb
    | ok entries =>
      rw [hi] at hb
      cases hb
      exact ⟨entries, rfl, rfl, rfl⟩
  obtain ⟨entries, hok, hg, hw⟩ := hokk
  subst hg
  subst hw
  have hkeys := insertTables_keys ts [] entries hok (by simp)
  have ht2 : t ∈ entries.map Prod.snd := ht
  refine ⟨?_, ?_, rfl⟩
  · obtain ⟨e, he, het⟩ := List.mem_map.mp ht2
    have he1 : e.1 = t.qualifiedName := by
      rw [hkeys e he, het]
    refine List.mem_flatMap.mpr ⟨e, he, ?_⟩
    refine List.mem_filterMap.mpr ⟨fk, ?_, ?_⟩
    · rw [het]
      exact hfk
    · have hcf : (entries.map Prod.fst).contains (fkTargetQualified fk) = false := by
        simpa using hd
      rw [hcf]
      simp [he1]
  · rw [mermaidLines_eq]
    refine List.mem_cons_of_mem _ (List.mem_cons_of_mem _ (List.mem_append_right _ ?_))
    exact List.mem_flatMap.mpr ⟨t, ht, List.mem_map_of_mem _ hfk⟩

theorem dangling_fk_warning_nonfatal_witness :
    (buildGraph [demoDanglingOrders] = .ok (demoDanglingGraph, demoDanglingWarnings)
      ∧ demoDanglingOrders ∈ demoDanglingGraph.tablesList
      ∧ (⟨("orders_user_id_fkey" : String), [("user_id" : String)], ("users" : String),
          ("public" : String), [("id" : String)]⟩ : ForeignKey)
          ∈ demoDanglingOrders.foreign_keys
      ∧ fkTargetQualified ⟨("orders_user_id_fkey" : String), [("user_id" : String)],
          ("users" : String), ("public" : String), [("id" : String)]⟩
          ∉ demoDanglingGraph.tables.map Prod.fst)
    ∧ GraphWarning.danglingReference demoDanglingOrders.qualifiedName
        ("orders_user_id_fkey" : String)
        (fkTargetQualified ⟨("orders_user_id_fkey" : String), [("user_id" : String)],
          ("users" : String), ("public" : String), [("id" : String)]⟩)
        ∈ demoDanglingWarnings :=
  ⟨⟨rfl, by decide, by decide, by decide⟩,
   (dangling_fk_warning_nonfatal [demoDanglingOrders] demoDanglingGraph demoDanglingWarnings
     demoDanglingOrders
     ⟨("orders_user_id_fkey" : String), [("user_id" : String)], ("users" : String),
      ("public" : String), [("id" : String)]⟩
     rfl (by decide) (by decide) (by decide)).1⟩

/-- Claim C8: the Mermaid output contains, after the table blocks, exactly one
relationship line per foreign key in iteration order, and that line uses the
optional notation `||--o{` exactly when some column of the table named in the
foreign key is nullable, and `||--|{` otherwise. -/
theorem mermaid_relationship_line_per_fk (g : SchemaGraph) (t : Table) (fk : ForeignKey) :
    (∃ p : List String,
        mermaidLines g = p ++ g.tablesList.flatMap (fun u => u.foreign_keys.map (fkLine u)))
    ∧ fkLine t fk = ("    " : String) ++ fk.target_table ++ (" ")
        ++ (if ∃ c ∈ t.columns, c.nullable = true ∧ c.name ∈ fk.columns
            then ("||--o\x7b" : String) else ("||--|\x7b" : String))
        ++ (" ") ++ t.name ++ (" : \"") ++ String.intercalate (", ") fk.columns ++ ("\"") := by
  constructor
  · refine ⟨("erDiagram" : String) :: ("" : String) :: g.tablesList.flatMap tableBlock, ?_⟩
    rw [mermaidLines_eq]
    simp
  · by_cases h : ∃ c ∈ t.columns, c.nullable = true ∧ c.name ∈ fk.columns
    · have hb : (t.columns.any fun col => col.nullable && fk.columns.contains col.name) = true := by
        simp only [List.any_eq_true, Bool.and_eq_true]
        obtain ⟨c, hc, hn, hm⟩ := h
        exact ⟨c, hc, hn, by simpa using hm⟩
      simp [fkLine, hb, h]
    · have hb : (t.columns.any fun col => col.nullable && fk.columns.contains col.name) = false := by
        simp only [List.any_eq_false, Bool.and_eq_true, not_and]
        intro c hc hn
        simp only [List.elem_eq_mem, decide_eq_true_eq]
        intro hm
        exact h ⟨c, hc, hn, hm⟩
      simp [fkLine, hb, h]

/-- Claim C9: each emitted column line carries `PK` exactly when the table has
a primary key listing the column, `FK` exactly when some foreign key lists the
column, and `PK,FK` when both hold. -/
theorem mermaid_column_constraint_markers (g : SchemaGraph) (t : Table) (c : Column)
    (ht : t ∈ g.tablesList) (hc : c ∈ t.columns) :
    columnLine t c ∈ mermaidLines g
    ∧ (pkMarks t c → fkMarks t c → columnLine t c = columnLineBase c ++ (" PK,FK"))
    ∧ (pkMarks t c → ¬ fkMarks t c → columnLine t c = columnLineBase c ++ (" PK"))
    ∧ (¬ pkMarks t c → fkMarks t c → columnLine t c = columnLineBase c ++ (" FK"))
    ∧ (¬ pkMarks t c → ¬ fkMarks t c → columnLine t c = columnLineBase c) := by
  have hbase : ∀ s : String, ("        " : String) ++ sanitizeRawType c.data_type.raw ++ (" ")
      ++ replaceChar ' ' '_' c.name ++ s = columnLineBase c ++ s := by
    intro s
    rw [columnLineBase]
  have hpkT : pkMarks t c → (match t.primary_key with
      | some pk => pk.columns.contains c.name
      | none => false) = true := by
    rintro ⟨pk, hpk, hmem⟩
    rw [hpk]
    simpa using hmem
  have hpkF : ¬ pkMarks t c → (match t.primary_key with
      | some pk => pk.columns.contains c.name
      | none => false) = false := by
    intro h
    match hp : t.primary_key with
    | some pk =>
      simp only [List.contains_eq_any_beq]
      simp only [List.any_eq_false]
      intro x hx
      simp only [beq_iff_eq]
      intro he
      exact h ⟨pk, hp, he ▸ hx⟩
    | none => rfl
  have hfkT : fkMarks t c → (t.foreign_keys.any fun fk => fk.columns.contains c.name) = true := by
    rintro ⟨fk, hfk, hmem⟩
    simp only [List.any_eq_true]
    exact ⟨fk, hfk, by simpa using hmem⟩
  have hfkF : ¬ fkMarks t c → (t.foreign_keys.any fun fk => fk.columns.contains c.name) = false := by
    intro h
    simp only [List.any_eq_false]
    intro fk hfk
    simp only [List.elem_eq_mem, decide_eq_true_eq]
    intro hm
    exact h ⟨fk, hfk, hm⟩
  refine ⟨?_, ?_, ?_, ?_, ?_⟩
  · rw [mermaidLines_eq]
    refine List.mem_cons_of_mem _ (List.mem_cons_of_mem _ (List.mem_append_left _ ?_))
    exact List.mem_flatMap.mpr ⟨t, ht,
      List.mem_cons_of_mem _ (List.mem_append_left _ (List.mem_map_of_mem _ hc))⟩
  · intro h1 h2
    simp only [columnLine, hpkT h1, hfkT h2]
    rw [← hbase]
    congr 1
  · intro h1 h2
    simp only [columnLine, hpkT h1, hfkF h2]
    rw [← hbase]
    congr 1
  · intro h1 h2
    simp only [columnLine, hpkF h1, hfkT h2]
    rw [← hbase]
    congr 1
  · intro h1 h2
    have h5 := hbase ("")
    simp only [String.append_empty] at h5
    simp only [columnLine, hpkF h1, hfkF h2]
    simp [h5]

theorem mermaid_column_constraint_markers_witness :
    (demoOrders ∈ demoGraph.tablesList
      ∧ (⟨("user_id" : String), intType, false⟩ : Column) ∈ demoOrders.columns)
    ∧ columnLine demoOrders ⟨("user_id" : String), intType, false⟩ ∈ mermaidLines demoGraph :=
  ⟨⟨by decide, by decide⟩,
   (mermaid_column_constraint_markers demoGraph demoOrders
     ⟨("user_id" : String), intType, false⟩ (by decide) (by decide)).1⟩

/-- Claim C10: the generated string starts with the `erDiagram` header line;
the emitted lines are the header, one block per table in iteration order, then
the relationship lines; and sanitization removes every space, parenthesis and
square bracket from raw type names (spaces become underscores) and every space
from column names. -/
theorem mermaid_erd_structure_sanitized (g : SchemaGraph) :
    (∃ rest : String, generate_mermaid_erd g = ("erDiagram\n" : String) ++ rest)
    ∧ mermaidLines g = ("erDiagram" : String) :: ("" : String)
        :: (g.tablesList.flatMap tableBlock
            ++ g.tablesList.flatMap (fun t => t.foreign_keys.map (fkLine t)))
    ∧ (∀ t : Table, tableBlock t = (("    " : String) ++ t.name ++ (" \x7b"))
        :: (t.columns.map (columnLine t) ++ [("    \x7d" : String), ("" : String)]))
    ∧ (∀ raw : String, (' ') ∉ (sanitizeRawType raw).data ∧ ('(') ∉ (sanitizeRawType raw).data
        ∧ (')') ∉ (sanitizeRawType raw).data ∧ ('[') ∉ (sanitizeRawType raw).data
        ∧ (']') ∉ (sanitizeRawType raw).data)
    ∧ (∀ nm : String, (' ') ∉ (replaceChar ' ' '_' nm).data) := by
  refine ⟨?_, mermaidLines_eq g, fun _ => rfl, sanitize_no_bad_chars, space_not_mem_replaceChar⟩
  refine ⟨String.intercalate ("\n") (("" : String)
    :: (g.tablesList.flatMap tableBlock
        ++ g.tablesList.flatMap (fun t => t.foreign_keys.map (fkLine t)))), ?_⟩
  rw [generate_mermaid_erd, mermaidLines_eq, intercalate_cons_cons]
  have : ("erDiagram" : String) ++ ("\n") = ("erDiagram\n" : String) := by decide
  rw [← this, String.append_assoc]
